import Mathlib

/-!
Shallow embedding of the IPv4 address arithmetic library (src/addrs.js).

JavaScript numbers are IEEE doubles, but the program only ever produces
integers of magnitude well below 2^53, so plain Int addition, subtraction,
min and abs model the untyped arithmetic exactly.  JavaScript bitwise
operators first coerce each operand with ToInt32/ToUint32 (reduction
modulo 2^32, signed values in [-2^31, 2^31)), reduce shift counts modulo
32, and return a signed 32-bit result (except for the unsigned shift,
which returns the nonnegative pattern).  The jsXxx functions below are
those operators.
-/

/-- ToUint32: the 32-bit pattern of a JavaScript number that is an integer. -/
def toUint32 (n : Int) : Nat := (n % 4294967296).toNat

/-- ToInt32: reduction modulo 2^32 into the signed range [-2^31, 2^31). -/
def toInt32 (n : Int) : Int :=
  if n % 4294967296 < 2147483648 then n % 4294967296 else n % 4294967296 - 4294967296

/-- JavaScript bitwise and. -/
def jsAnd (a b : Int) : Int := toInt32 (Int.ofNat (toUint32 a &&& toUint32 b))

/-- JavaScript bitwise or. -/
def jsOr (a b : Int) : Int := toInt32 (Int.ofNat (toUint32 a ||| toUint32 b))

/-- JavaScript bitwise complement: flips the 32 bits of the pattern. -/
def jsNot (a : Int) : Int := toInt32 (Int.ofNat (4294967295 - toUint32 a))

/-- JavaScript left shift: shift count is the low five bits of the rhs,
the result is reinterpreted as a signed 32-bit integer. -/
def jsShl (a b : Int) : Int :=
  toInt32 (Int.ofNat ((toUint32 a <<< (toUint32 b % 32)) % 4294967296))

/-- JavaScript unsigned right shift: yields the nonnegative shifted pattern. -/
def jsShrU (a b : Int) : Int := Int.ofNat (toUint32 a >>> (toUint32 b % 32))

/-- JavaScript signed (arithmetic) right shift: floor division of the signed
32-bit value by a power of two. -/
def jsShrS (a b : Int) : Int := Int.fdiv (toInt32 a) (2 ^ (toUint32 b % 32))

/-- The Ipv4Address class of src/addrs.js: a wrapper around the number
stored in its int_repr field. -/
structure Ipv4Address where
  _int_repr : Int
deriving DecidableEq, Repr

/-- Method integer() of Ipv4Address. -/
def Ipv4Address.integer (a : Ipv4Address) : Int := a._int_repr

/-- Method toIpStr of Ipv4Address, modelled at the octet level: the
JavaScript function renders the four octet numbers in decimal joined by
dots; decimal rendering of a number is inverted exactly by parseInt, so
the dotted string is modelled by the list of the four octet values it
displays. -/
def Ipv4Address._toIpStr (value : Int) : List Int :=
  [jsAnd (jsShrS value 24) 255,
   jsAnd (jsShrS value 16) 255,
   jsAnd (jsShrS value 8) 255,
   jsAnd value 255]

/-- Ipv4Address.prototype.toString: renders the stored integer. -/
def Ipv4Address.toIpString (a : Ipv4Address) : List Int :=
  Ipv4Address._toIpStr a.integer

/-- Ipv4Address.fromString, modelled at the octet level (see toIpStr):
each octet (already parsed from decimal by parseInt) is scaled by
256^(length - index - 1) and the results are summed; the reduce over
addition with first element as seed equals a fold from 0. -/
def Ipv4Address.fromString (octets : List Int) : Ipv4Address :=
  ⟨(octets.mapIdx fun index octet =>
      octet * 256 ^ (octets.length - index - 1)).foldl (fun prev curr => prev + curr) 0⟩

/-- Decidable equality for Except values, used to evaluate the embedded
fallible methods at concrete inputs. -/
instance {ε α : Type} [DecidableEq ε] [DecidableEq α] : DecidableEq (Except ε α) := fun x y =>
  match x, y with
  | .error e, .error f =>
    if h : e = f then isTrue (by rw [h]) else isFalse (by simp [h])
  | .error _, .ok _ => isFalse (by simp)
  | .ok _, .error _ => isFalse (by simp)
  | .ok a, .ok b =>
    if h : a = b then isTrue (by rw [h]) else isFalse (by simp [h])

/-- The Ipv4Network class: an Ipv4Address plus a prefix length. -/
structure Ipv4Network where
  address : Ipv4Address
  prefixlen : Int
deriving DecidableEq, Repr

/-- The netmask computed in the Ipv4Network constructor:
((1 << prefixlen) - 1) << (32 - prefixlen), with JavaScript shifts. -/
def Ipv4Network._netmask (n : Ipv4Network) : Int :=
  jsShl (jsShl 1 n.prefixlen - 1) (32 - n.prefixlen)

/-- Method first(host): (address & netmask) + (host ? 1 : 0). -/
def Ipv4Network.first (n : Ipv4Network) (host : Bool) : Ipv4Address :=
  ⟨jsAnd n.address.integer n._netmask + (if host then 1 else 0)⟩

/-- Method last(host): ((address & netmask) + ~netmask) - (host ? 1 : 0). -/
def Ipv4Network.last (n : Ipv4Network) (host : Bool) : Ipv4Address :=
  ⟨jsAnd n.address.integer n._netmask + jsNot n._netmask - (if host then 1 else 0)⟩

/-- Method network(): first(false). -/
def Ipv4Network.network (n : Ipv4Network) : Ipv4Address := n.first false

/-- Method broadcast(): last(false). -/
def Ipv4Network.broadcast (n : Ipv4Network) : Ipv4Address := n.last false

/-- Method netmask(): the netmask wrapped as an Ipv4Address. -/
def Ipv4Network.netmask (n : Ipv4Network) : Ipv4Address := ⟨n._netmask⟩

/-- Method hosts(): the for loop collects every integer i with
first(true) <= i <= last(true), in increasing order. -/
def Ipv4Network.hosts (n : Ipv4Network) : List Ipv4Address :=
  (List.range ((n.last true).integer + 1 - (n.first true).integer).toNat).map
    fun (i : Nat) => ⟨(n.first true).integer + (i : Int)⟩

/-- Error message thrown by split. -/
def splitErrMsg : String := "The requested prefix length must be larger than the supernet"

/-- Method split(prefixlen): throws unless the requested prefix length is
strictly larger, then builds 2^(new - old) networks whose addresses are
((address >>> (32 - new)) + i) << (32 - new). -/
def Ipv4Network.split (n : Ipv4Network) (prefixlen : Int) : Except String (List Ipv4Network) :=
  if prefixlen ≤ n.prefixlen then Except.error splitErrMsg
  else Except.ok ((List.range (2 ^ (prefixlen - n.prefixlen).toNat)).map
    fun (i : Nat) =>
      ⟨⟨jsShl (jsShrU n.address.integer (32 - prefixlen) + (i : Int)) (32 - prefixlen)⟩,
       prefixlen⟩)

/-- Method overlaps(network): two signed comparisons of
(address & netmask) against (address | ~netmask), each network using its
own mask. -/
def Ipv4Network.overlaps (a b : Ipv4Network) : Bool :=
  decide (jsAnd b.address.integer (b.netmask).integer ≤
          jsOr a.address.integer (jsNot (a.netmask).integer)) &&
  decide (jsAnd a.address.integer (a.netmask).integer ≤
          jsOr b.address.integer (jsNot (b.netmask).integer))

/-- Method isContiguous(network).  In the source the first disjunct reads
Math.abs(this.first().integer() - network.last().integer) == 1: the
trailing .integer is the method object itself, not a call, so the
subtraction evaluates to NaN and the comparison NaN == 1 is false.  The
first disjunct is therefore the constant false, and only the second
disjunct, Math.abs(this.last().integer() - network.first().integer()) == 1,
decides the result. -/
def Ipv4Network.isContiguous (a b : Ipv4Network) : Bool :=
  false ||
  decide (((a.last false).integer - (b.first false).integer).natAbs = 1)

/-- Error message thrown by merge for non-contiguous networks (spelled as
in the source). -/
def mergeContiguousMsg : String := "Address space must be congiguous in order to merge networks"

/-- Error message thrown by merge for differing prefix lengths. -/
def mergeSamePrefixLenMsg : String := "Networks must be the same prefix length in order to merge"

/-- Method merge(network): requires the (defective) contiguity test and
equal prefix lengths, then returns a network on the smaller of the two raw
base addresses with prefix length one less. -/
def Ipv4Network.merge (a b : Ipv4Network) : Except String Ipv4Network :=
  if !(a.isContiguous b) then Except.error mergeContiguousMsg
  else if a.prefixlen ≠ b.prefixlen then Except.error mergeSamePrefixLenMsg
  else Except.ok ⟨⟨min a.address.integer b.address.integer⟩, a.prefixlen - 1⟩

/-- Ipv4Network.fromCidr, modelled with the address and prefix length
already split out of the cidr text. -/
def Ipv4Network.fromCidr (octets : List Int) (prefixPart : Int) : Ipv4Network :=
  ⟨Ipv4Address.fromString octets, prefixPart⟩

/-- Host-bit count of the constructor netmask.  Because JavaScript reduces
shift counts modulo 32, prefix length 32 collapses to the same zero mask
as prefix length 0, hence its host-bit count is 32, not 0. -/
def maskExp (p : Int) : Nat := if p = 32 then 32 else (32 - p).toNat

/-! Helper lemmas about the 32-bit primitives. -/

lemma toUint32_lt (n : Int) : toUint32 n < 4294967296 := by
  unfold toUint32; omega

lemma toUint32_toInt32 (n : Int) : toUint32 (toInt32 n) = toUint32 n := by
  unfold toUint32 toInt32; split <;> omega

lemma intOfNat_eq_cast (m : Nat) : Int.ofNat m = (m : Int) := rfl

lemma toUint32_natCast (m : Nat) (h : m < 4294967296) : toUint32 (m : Int) = m := by
  unfold toUint32; omega

lemma toUint32_ofNat (m : Nat) (h : m < 4294967296) : toUint32 (Int.ofNat m) = m := by
  unfold toUint32; rw [intOfNat_eq_cast]; omega

lemma toInt32_pattern (n : Int) : toInt32 n % 4294967296 = n % 4294967296 := by
  unfold toInt32; split <;> omega

lemma toUint32_add (x y : Int) :
    toUint32 (x + y) = (toUint32 x + toUint32 y) % 4294967296 := by
  unfold toUint32; omega

/-- Bit i of q * 2^k + r, for r below 2^k: the low k bits come from r, the
rest from q. -/
lemma testBit_mul_pow_add (q r k i : Nat) (hr : r < 2 ^ k) :
    (q * 2 ^ k + r).testBit i = if i < k then r.testBit i else q.testBit (i - k) := by
  rcases Nat.lt_or_ge i k with h | h
  · rw [if_pos h, Nat.testBit_to_div_mod, Nat.testBit_to_div_mod]
    have e2 : q * 2 ^ k + r = r + q * 2 ^ (k - i - 1) * 2 * 2 ^ i := by
      have : 2 ^ k = 2 ^ (k - i - 1) * 2 * 2 ^ i := by
        rw [mul_assoc, ← pow_succ', ← pow_add]
        congr 1
        omega
      rw [this]
      ring
    rw [e2, Nat.add_mul_div_right _ _ (Nat.two_pow_pos i)]
    have hmod : (r / 2 ^ i + q * 2 ^ (k - i - 1) * 2) % 2 = r / 2 ^ i % 2 := by omega
    rw [hmod]
  · rw [if_neg (by omega), Nat.testBit_to_div_mod, Nat.testBit_to_div_mod]
    have e3 : (q * 2 ^ k + r) / 2 ^ i = q / 2 ^ (i - k) := by
      have : 2 ^ i = 2 ^ k * 2 ^ (i - k) := by
        rw [← pow_add]
        congr 1
        omega
      rw [this, ← Nat.div_div_eq_div_mul]
      congr 1
      rw [add_comm, Nat.add_mul_div_right _ _ (Nat.two_pow_pos k), Nat.div_eq_of_lt hr,
          zero_add]
    rw [e3]

/-- And with a low mask keeps the low k bits. -/
lemma land_low_mask (a k : Nat) : a &&& (2 ^ k - 1) = a % 2 ^ k := by
  apply Nat.eq_of_testBit_eq
  intro i
  rw [Nat.testBit_land, Nat.testBit_two_pow_sub_one, Nat.testBit_mod_two_pow, Bool.and_comm]

/-- And with the high mask of a 32-bit value clears the low k bits. -/
lemma land_high_mask (a k : Nat) (hk : k ≤ 32) (ha : a < 2 ^ 32) :
    a &&& (2 ^ 32 - 2 ^ k) = a / 2 ^ k * 2 ^ k := by
  have hm : 2 ^ 32 - 2 ^ k = (2 ^ (32 - k) - 1) * 2 ^ k + 0 := by
    rw [add_zero, Nat.sub_mul, one_mul, ← pow_add, Nat.sub_add_cancel hk]
  have hz : a / 2 ^ k * 2 ^ k = a / 2 ^ k * 2 ^ k + 0 := by omega
  apply Nat.eq_of_testBit_eq
  intro i
  rw [Nat.testBit_land, hm, hz, testBit_mul_pow_add _ _ _ _ (Nat.two_pow_pos k),
      testBit_mul_pow_add _ _ _ _ (Nat.two_pow_pos k)]
  by_cases hik : i < k
  · simp [hik]
  · simp only [if_neg hik]
    rw [Nat.testBit_two_pow_sub_one, ← Nat.shiftRight_eq_div_pow, Nat.testBit_shiftRight,
        show k + (i - k) = i by omega]
    by_cases hi32 : i < 32
    · simp [show i - k < 32 - k by omega]
    · have hia : a < 2 ^ i :=
        lt_of_lt_of_le ha (Nat.pow_le_pow_right (by norm_num) (by omega))
      rw [Nat.testBit_lt_two_pow hia]
      simp

/-- Or with a low mask sets the low k bits. -/
lemma lor_low_mask (a k : Nat) :
    a ||| (2 ^ k - 1) = a / 2 ^ k * 2 ^ k + (2 ^ k - 1) := by
  have ha2 : a = a / 2 ^ k * 2 ^ k + a % 2 ^ k := by
    rw [add_comm]
    exact (Nat.mod_add_div' a (2 ^ k)).symm
  have hmlt : a % 2 ^ k < 2 ^ k := Nat.mod_lt _ (Nat.two_pow_pos k)
  have hsub : 2 ^ k - 1 < 2 ^ k := by
    have := Nat.two_pow_pos k
    omega
  apply Nat.eq_of_testBit_eq
  intro i
  conv_lhs => rw [ha2]
  rw [Nat.testBit_lor, testBit_mul_pow_add _ _ _ _ hmlt, testBit_mul_pow_add _ _ _ _ hsub,
      Nat.testBit_two_pow_sub_one]
  by_cases hik : i < k <;> simp [hik]

/-! Structure of the constructor netmask and of first/last. -/

lemma maskExp_le (p : Int) (h0 : 0 ≤ p) : maskExp p ≤ 32 := by
  unfold maskExp; split <;> omega

lemma maskExp_of_le_31 (p : Int) (h : p ≤ 31) : maskExp p = (32 - p).toNat := by
  unfold maskExp
  rw [if_neg (by omega)]

lemma netmask_def (n : Ipv4Network) :
    n._netmask = jsShl (jsShl 1 n.prefixlen - 1) (32 - n.prefixlen) := rfl

lemma netmask_pattern_aux (p : Int) (h0 : 0 ≤ p) (h1 : p ≤ 32) :
    toUint32 (jsShl (jsShl 1 p - 1) (32 - p)) = 2 ^ 32 - 2 ^ maskExp p := by
  interval_cases p <;> decide

lemma netmask_pattern (n : Ipv4Network) (h0 : 0 ≤ n.prefixlen) (h1 : n.prefixlen ≤ 32) :
    toUint32 n._netmask = 2 ^ 32 - 2 ^ maskExp n.prefixlen := by
  rw [netmask_def]
  exact netmask_pattern_aux n.prefixlen h0 h1

lemma mk_integer (x : Int) : (Ipv4Address.mk x).integer = x := rfl

lemma first_integer (n : Ipv4Network) (host : Bool) :
    (n.first host).integer = jsAnd n.address.integer n._netmask + (if host then 1 else 0) := by
  unfold Ipv4Network.first
  rw [mk_integer]

lemma last_integer (n : Ipv4Network) (host : Bool) :
    (n.last host).integer =
      jsAnd n.address.integer n._netmask + jsNot n._netmask - (if host then 1 else 0) := by
  unfold Ipv4Network.last
  rw [mk_integer]

lemma network_integer (n : Ipv4Network) :
    (n.network).integer = jsAnd n.address.integer n._netmask := by
  unfold Ipv4Network.network
  rw [first_integer]
  norm_num

lemma broadcast_integer (n : Ipv4Network) :
    (n.broadcast).integer = jsAnd n.address.integer n._netmask + jsNot n._netmask := by
  unfold Ipv4Network.broadcast
  rw [last_integer]
  norm_num

lemma netmask_integer (n : Ipv4Network) : (n.netmask).integer = n._netmask := by
  unfold Ipv4Network.netmask
  rw [mk_integer]

/-- If the cleared value A / 2^k * 2^k still fits under 2^c (k ≤ c), one more
aligned block also fits. -/
lemma div_mul_bound (A c k : Nat) (h : A / 2 ^ k * 2 ^ k < 2 ^ c) (hk : k ≤ c) :
    A / 2 ^ k * 2 ^ k + 2 ^ k ≤ 2 ^ c := by
  have hc : 2 ^ c = 2 ^ (c - k) * 2 ^ k := by
    rw [← pow_add, Nat.sub_add_cancel hk]
  rw [hc] at h ⊢
  have hdiv : A / 2 ^ k < 2 ^ (c - k) := by
    by_contra hcon
    push_neg at hcon
    exact absurd (Nat.mul_le_mul_right (2 ^ k) hcon) (by omega)
  calc A / 2 ^ k * 2 ^ k + 2 ^ k = (A / 2 ^ k + 1) * 2 ^ k := by ring
    _ ≤ 2 ^ (c - k) * 2 ^ k := Nat.mul_le_mul_right _ (by omega)

/-- Joint shape of first(false) and last(false): the broadcast integer is
address | ~netmask, and either the network/broadcast interval is a proper
interval whose members share their sign bit, or (zero netmask: prefix
length 0 or 32) it is the degenerate pair (0, -1). -/
lemma net_bc_props (n : Ipv4Network) (h0 : 0 ≤ n.prefixlen) (h1 : n.prefixlen ≤ 32) :
    (n.broadcast).integer = jsOr n.address.integer (jsNot n._netmask) ∧
    (((n.network).integer ≤ (n.broadcast).integer ∧
      ((n.network).integer < 0 → (n.broadcast).integer < 0)) ∨
     ((n.network).integer = 0 ∧ (n.broadcast).integer = -1)) := by
  have hk32 : maskExp n.prefixlen ≤ 32 := maskExp_le _ h0
  have hKpos : (0:Nat) < 2 ^ maskExp n.prefixlen := Nat.two_pow_pos _
  have hK32 : (2:Nat) ^ maskExp n.prefixlen ≤ 2 ^ 32 :=
    Nat.pow_le_pow_right (by norm_num) hk32
  have hmask : toUint32 n._netmask = 2 ^ 32 - 2 ^ maskExp n.prefixlen :=
    netmask_pattern n h0 h1
  have hAlt : toUint32 n.address.integer < 2 ^ 32 := by
    have := toUint32_lt n.address.integer
    omega
  set k := maskExp n.prefixlen with hkdef
  set A := toUint32 n.address.integer with hAdef
  set X := A / 2 ^ k * 2 ^ k with hXdef
  have hand : jsAnd n.address.integer n._netmask = toInt32 (Int.ofNat X) := by
    unfold jsAnd
    rw [hmask, land_high_mask A k hk32 hAlt]
  have hnot : jsNot n._netmask = toInt32 (Int.ofNat (2 ^ k - 1)) := by
    unfold jsNot
    rw [hmask]
    rw [show 4294967295 - (2 ^ 32 - 2 ^ k) = 2 ^ k - 1 by omega]
  have hor : jsOr n.address.integer (jsNot n._netmask) =
      toInt32 (Int.ofNat (X + (2 ^ k - 1))) := by
    unfold jsOr
    rw [hnot, toUint32_toInt32, toUint32_ofNat _ (by omega), lor_low_mask]
  have hnet : (n.network).integer = toInt32 (Int.ofNat X) := by
    rw [network_integer, hand]
  have hbc : (n.broadcast).integer =
      toInt32 (Int.ofNat X) + toInt32 (Int.ofNat (2 ^ k - 1)) := by
    rw [broadcast_integer, hand, hnot]
  have hXle : X ≤ A := Nat.div_mul_le_self A (2 ^ k)
  have hb32 : X + 2 ^ k ≤ 2 ^ 32 := div_mul_bound A 32 k (by omega) hk32
  rw [hor, hnet, hbc]
  by_cases hk' : k = 32
  · have hX0 : X = 0 := by
      rw [hXdef, hk', Nat.div_eq_of_lt (by omega)]
      ring
    rw [hX0, hk']
    refine ⟨by decide, Or.inr ⟨by decide, by decide⟩⟩
  · have h2k31 : (2:Nat) ^ k ≤ 2 ^ 31 := Nat.pow_le_pow_right (by norm_num) (by omega)
    by_cases hX31 : X < 2 ^ 31
    · have hb31 : X + 2 ^ k ≤ 2 ^ 31 := div_mul_bound A 31 k (by omega) (by omega)
      constructor
      · unfold toInt32
        rw [intOfNat_eq_cast, intOfNat_eq_cast, intOfNat_eq_cast]
        split_ifs <;> omega
      · left
        unfold toInt32
        rw [intOfNat_eq_cast, intOfNat_eq_cast]
        constructor
        · split_ifs <;> omega
        · split_ifs <;> omega
    · constructor
      · unfold toInt32
        rw [intOfNat_eq_cast, intOfNat_eq_cast, intOfNat_eq_cast]
        split_ifs <;> omega
      · left
        unfold toInt32
        rw [intOfNat_eq_cast, intOfNat_eq_cast]
        constructor
        · split_ifs <;> omega
        · split_ifs <;> omega

/-! Small derived forms of first and last. -/

lemma first_true_integer (n : Ipv4Network) :
    (n.first true).integer = jsAnd n.address.integer n._netmask + 1 := by
  rw [first_integer]
  norm_num

lemma last_true_integer (n : Ipv4Network) :
    (n.last true).integer = jsAnd n.address.integer n._netmask + jsNot n._netmask - 1 := by
  rw [last_integer]
  norm_num

/-- Claim C1 (code bug witnessed): the constructor netmask is 0 at prefix
length 0 as specified, but also 0 at prefix length 32, where the
specification demands the all-ones mask 4294967295: JavaScript reduces the
shift count modulo 32, so (1 << 32) - 1 evaluates to 0 and no special case
exists in the source. -/
theorem netmask_at_edge_lengths :
    (Ipv4Network.mk ⟨0⟩ 0)._netmask = 0 ∧
    (Ipv4Network.mk ⟨0⟩ 32)._netmask = 0 ∧
    toUint32 (Ipv4Network.mk ⟨0⟩ 32)._netmask ≠ 4294967295 :=
  ⟨by decide, by decide, by decide⟩

/-- Claim C2 (code bug witnessed): 10.0.1.0/24 and 10.0.0.0/24 are adjacent
(network of the first minus broadcast of the second is 1), yet isContiguous
returns false: the disjunct that would detect this orientation compares
against the uninvoked method object, which yields NaN == 1, always false. -/
theorem isContiguous_misses_adjacent_neighbor :
    ((Ipv4Network.mk ⟨167772416⟩ 24).network).integer -
      ((Ipv4Network.mk ⟨167772160⟩ 24).broadcast).integer = 1 ∧
    (Ipv4Network.mk ⟨167772416⟩ 24).isContiguous (Ipv4Network.mk ⟨167772160⟩ 24) = false :=
  ⟨by decide, by decide⟩

/-- Claim C3: overlaps returns true exactly when the closed intervals
[network(), broadcast()] of the two networks, over the integers the code
computes, have a common point. -/
theorem overlaps_iff_ranges_intersect (a b : Ipv4Network)
    (ha0 : 0 ≤ a.prefixlen) (ha1 : a.prefixlen ≤ 32)
    (hb0 : 0 ≤ b.prefixlen) (hb1 : b.prefixlen ≤ 32) :
    a.overlaps b = true ↔
      ∃ x : Int, (a.network).integer ≤ x ∧ x ≤ (a.broadcast).integer ∧
                 (b.network).integer ≤ x ∧ x ≤ (b.broadcast).integer := by
  obtain ⟨haor, hashape⟩ := net_bc_props a ha0 ha1
  obtain ⟨hbor, hbshape⟩ := net_bc_props b hb0 hb1
  have hov : a.overlaps b = true ↔
      ((b.network).integer ≤ (a.broadcast).integer ∧
       (a.network).integer ≤ (b.broadcast).integer) := by
    unfold Ipv4Network.overlaps
    rw [netmask_integer, netmask_integer, ← haor, ← hbor,
        ← network_integer a, ← network_integer b]
    simp
  rw [hov]
  constructor
  · rintro ⟨h1, h2⟩
    rcases hashape with ⟨hle, hneg⟩ | ⟨hz, hbc⟩
    · rcases hbshape with ⟨hle2, hneg2⟩ | ⟨hz2, hbc2⟩
      · refine ⟨max (a.network).integer (b.network).integer, ?_, ?_, ?_, ?_⟩ <;> omega
      · exfalso
        have := hneg (by omega)
        omega
    · rcases hbshape with ⟨hle2, hneg2⟩ | ⟨hz2, hbc2⟩
      · exfalso
        have := hneg2 (by omega)
        omega
      · exfalso
        omega
  · rintro ⟨x, hx1, hx2, hx3, hx4⟩
    exact ⟨by omega, by omega⟩

/-- Witness for C3: the specification scenario, 10.47.0.0/16 overlaps
10.47.64.0/18 and does not overlap 192.168.1.0/24, together with the
interval reading supplied by the theorem at the first pair. -/
theorem overlaps_iff_ranges_intersect_witness :
    (Ipv4Network.mk ⟨170852352⟩ 16).overlaps (Ipv4Network.mk ⟨170868736⟩ 18) = true ∧
    (Ipv4Network.mk ⟨170852352⟩ 16).overlaps (Ipv4Network.mk ⟨3232235776⟩ 24) = false ∧
    ((Ipv4Network.mk ⟨170852352⟩ 16).overlaps (Ipv4Network.mk ⟨170868736⟩ 18) = true ↔
      ∃ x : Int, ((Ipv4Network.mk ⟨170852352⟩ 16).network).integer ≤ x ∧
        x ≤ ((Ipv4Network.mk ⟨170852352⟩ 16).broadcast).integer ∧
        ((Ipv4Network.mk ⟨170868736⟩ 18).network).integer ≤ x ∧
        x ≤ ((Ipv4Network.mk ⟨170868736⟩ 18).broadcast).integer) :=
  ⟨by decide, by decide,
    overlaps_iff_ranges_intersect _ _ (by decide) (by decide) (by decide) (by decide)⟩

/-- Claim C5 (code bug witnessed): 172.16.2.0/23 is adjacent above
172.16.0.0/23 with equal prefix lengths, so the claim says merge returns
the /22 supernet; the code instead throws the contiguity error, because
its only working adjacency disjunct tests the other orientation. -/
theorem merge_throws_on_adjacent_above :
    ((Ipv4Network.mk ⟨2886730240⟩ 23).network).integer -
      ((Ipv4Network.mk ⟨2886729728⟩ 23).broadcast).integer = 1 ∧
    (Ipv4Network.mk ⟨2886730240⟩ 23).prefixlen = (Ipv4Network.mk ⟨2886729728⟩ 23).prefixlen ∧
    (Ipv4Network.mk ⟨2886730240⟩ 23).merge (Ipv4Network.mk ⟨2886729728⟩ 23) =
      Except.error mergeContiguousMsg :=
  ⟨by decide, by decide, by decide⟩

/-- Claim C6 (code bug witnessed): 10.0.0.128/25 and 10.0.0.0/25 are
adjacent in the claim's sense and share a prefix length, so by the claim
merge must not fail; the code raises the contiguity error. -/
theorem merge_error_despite_adjacency :
    ((((Ipv4Network.mk ⟨167772288⟩ 25).network).integer -
        ((Ipv4Network.mk ⟨167772160⟩ 25).broadcast).integer).natAbs = 1 ∨
     ((((Ipv4Network.mk ⟨167772288⟩ 25).broadcast).integer -
        ((Ipv4Network.mk ⟨167772160⟩ 25).network).integer)).natAbs = 1) ∧
    (Ipv4Network.mk ⟨167772288⟩ 25).prefixlen = (Ipv4Network.mk ⟨167772160⟩ 25).prefixlen ∧
    (Ipv4Network.mk ⟨167772288⟩ 25).merge (Ipv4Network.mk ⟨167772160⟩ 25) =
      Except.error mergeContiguousMsg :=
  ⟨Or.inl (by decide), by decide, by decide⟩

/-- Claim C7: split fails with the invalid-argument error exactly when the
requested prefix length is not strictly larger than the current one (the
guard runs before any work), and in particular 10.47.0.0/17 split at 17
fails. -/
theorem split_error_iff :
    (∀ (n : Ipv4Network) (q : Int),
        (∃ msg, n.split q = Except.error msg) ↔ q ≤ n.prefixlen) ∧
    (Ipv4Network.mk ⟨170852352⟩ 17).split 17 = Except.error splitErrMsg := by
  constructor
  · intro n q
    unfold Ipv4Network.split
    by_cases h : q ≤ n.prefixlen
    · rw [if_pos h]
      exact ⟨fun _ => h, fun _ => ⟨splitErrMsg, rfl⟩⟩
    · rw [if_neg h]
      constructor
      · rintro ⟨msg, hmsg⟩
        simp at hmsg
      · intro hq
        exact absurd hq h
  · decide

/-- Claim C9: overlaps is symmetric; the two conjuncts of the source are
images of each other under swapping the arguments. -/
theorem overlaps_symmetric (a b : Ipv4Network) : a.overlaps b = b.overlaps a := by
  unfold Ipv4Network.overlaps
  rw [Bool.and_comm]

lemma mem_hosts_integer (n : Ipv4Network) (a : Ipv4Address) (ha : a ∈ n.hosts) :
    ∃ i : Nat, (i : Int) < (n.last true).integer + 1 - (n.first true).integer ∧
      a.integer = (n.first true).integer + (i : Int) := by
  unfold Ipv4Network.hosts at ha
  rw [List.mem_map] at ha
  obtain ⟨i, hi, hrfl⟩ := ha
  rw [List.mem_range] at hi
  refine ⟨i, by omega, ?_⟩
  rw [← hrfl, mk_integer]

/-- Claim C10: hosts returns the empty list whenever first(true) exceeds
last(true) (in particular at prefix lengths 31 and 32), and every returned
address lies between first(true) and last(true). -/
theorem hosts_empty_or_within (n : Ipv4Network) :
    ((n.last true).integer < (n.first true).integer → n.hosts = []) ∧
    (∀ a ∈ n.hosts, (n.first true).integer ≤ a.integer ∧ a.integer ≤ (n.last true).integer) ∧
    (n.prefixlen = 31 ∨ n.prefixlen = 32 → n.hosts = []) := by
  refine ⟨?_, ?_, ?_⟩
  · intro h
    unfold Ipv4Network.hosts
    simp only [List.map_eq_nil_iff, List.range_eq_nil]
    omega
  · rintro a ha
    obtain ⟨i, hi, heq⟩ := mem_hosts_integer n a ha
    rw [heq]
    constructor <;> omega
  · intro h
    have hm1 : jsNot n._netmask = 1 ∨ jsNot n._netmask = -1 := by
      rcases h with h | h <;> rw [netmask_def, h]
      · left; decide
      · right; decide
    unfold Ipv4Network.hosts
    simp only [List.map_eq_nil_iff, List.range_eq_nil]
    rw [last_true_integer, first_true_integer]
    rcases hm1 with hm | hm <;> rw [hm] <;> omega

/-- Witness for C10 at the /31 network on base 0: first(true) exceeds
last(true) and hosts is empty. -/
theorem hosts_empty_or_within_witness :
    ((Ipv4Network.mk ⟨0⟩ 31).last true).integer <
      ((Ipv4Network.mk ⟨0⟩ 31).first true).integer ∧
    (Ipv4Network.mk ⟨0⟩ 31).hosts = [] :=
  ⟨by decide, (hosts_empty_or_within (Ipv4Network.mk ⟨0⟩ 31)).1 (by decide)⟩

/-! Octet arithmetic for the dotted-decimal round trip. -/

lemma jsAnd_255 (x : Int) : jsAnd x 255 = Int.ofNat (toUint32 x % 256) := by
  unfold jsAnd
  rw [show toUint32 255 = 2 ^ 8 - 1 from by decide, land_low_mask]
  unfold toInt32
  rw [intOfNat_eq_cast, intOfNat_eq_cast]
  have h : toUint32 x % 2 ^ 8 < 2 ^ 8 := Nat.mod_lt _ (by norm_num)
  split_ifs <;> omega

lemma jsShrS_24 (x : Int) : jsShrS x 24 = Int.fdiv (toInt32 x) 16777216 := by
  unfold jsShrS
  rw [show (2:Int) ^ (toUint32 24 % 32) = 16777216 from by decide]

lemma jsShrS_16 (x : Int) : jsShrS x 16 = Int.fdiv (toInt32 x) 65536 := by
  unfold jsShrS
  rw [show (2:Int) ^ (toUint32 16 % 32) = 65536 from by decide]

lemma jsShrS_8 (x : Int) : jsShrS x 8 = Int.fdiv (toInt32 x) 256 := by
  unfold jsShrS
  rw [show (2:Int) ^ (toUint32 8 % 32) = 256 from by decide]

lemma shr24_octet (x : Int) (h0 : 0 ≤ x) (h1 : x < 4294967296) :
    toUint32 (Int.fdiv (toInt32 x) 16777216) % 256 = x.toNat / 16777216 % 256 := by
  rw [Int.fdiv_eq_ediv _ (by norm_num)]
  unfold toInt32 toUint32
  split_ifs <;> omega

lemma shr16_octet (x : Int) (h0 : 0 ≤ x) (h1 : x < 4294967296) :
    toUint32 (Int.fdiv (toInt32 x) 65536) % 256 = x.toNat / 65536 % 256 := by
  rw [Int.fdiv_eq_ediv _ (by norm_num)]
  unfold toInt32 toUint32
  split_ifs <;> omega

lemma shr8_octet (x : Int) (h0 : 0 ≤ x) (h1 : x < 4294967296) :
    toUint32 (Int.fdiv (toInt32 x) 256) % 256 = x.toNat / 256 % 256 := by
  rw [Int.fdiv_eq_ediv _ (by norm_num)]
  unfold toInt32 toUint32
  split_ifs <;> omega

lemma fromString_quad (w x y z : Int) :
    (Ipv4Address.fromString [w, x, y, z]).integer =
      0 + w * 256 ^ 3 + x * 256 ^ 2 + y * 256 ^ 1 + z * 256 ^ 0 := by
  unfold Ipv4Address.fromString
  rw [mk_integer]
  rfl

/-- Claim C8: rendering an address whose stored value lies in [0, 2^32)
as its four decimal octets and parsing them back yields the same integer. -/
theorem fromString_toIpString_roundtrip (a : Ipv4Address)
    (h0 : 0 ≤ a.integer) (h1 : a.integer < 4294967296) :
    (Ipv4Address.fromString (Ipv4Address.toIpString a)).integer = a.integer := by
  have hts : Ipv4Address.toIpString a = Ipv4Address._toIpStr a.integer := by
    unfold Ipv4Address.toIpString
    exact rfl
  rw [hts]
  unfold Ipv4Address._toIpStr
  rw [fromString_quad]
  have o0 : jsAnd (jsShrS a.integer 24) 255 =
      Int.ofNat (a.integer.toNat / 16777216 % 256) := by
    rw [jsShrS_24, jsAnd_255, shr24_octet a.integer h0 h1]
  have o1 : jsAnd (jsShrS a.integer 16) 255 =
      Int.ofNat (a.integer.toNat / 65536 % 256) := by
    rw [jsShrS_16, jsAnd_255, shr16_octet a.integer h0 h1]
  have o2 : jsAnd (jsShrS a.integer 8) 255 =
      Int.ofNat (a.integer.toNat / 256 % 256) := by
    rw [jsShrS_8, jsAnd_255, shr8_octet a.integer h0 h1]
  have o3 : jsAnd a.integer 255 = Int.ofNat (a.integer.toNat % 256) := by
    rw [jsAnd_255, show toUint32 a.integer = a.integer.toNat from by unfold toUint32; omega]
  rw [o0, o1, o2, o3, intOfNat_eq_cast, intOfNat_eq_cast, intOfNat_eq_cast, intOfNat_eq_cast,
      show (256:Int) ^ 3 = 16777216 from by norm_num,
      show (256:Int) ^ 2 = 65536 from by norm_num,
      show (256:Int) ^ 1 = 256 from by norm_num,
      show (256:Int) ^ 0 = 1 from by norm_num]
  omega

/-- Witness for C8 at 192.168.1.1 (stored value 3232235777). -/
theorem fromString_toIpString_roundtrip_witness :
    0 ≤ (Ipv4Address.mk 3232235777).integer ∧
    (Ipv4Address.mk 3232235777).integer < 4294967296 ∧
    (Ipv4Address.fromString (Ipv4Address.toIpString (Ipv4Address.mk 3232235777))).integer =
      (Ipv4Address.mk 3232235777).integer :=
  ⟨by decide, by decide,
    fromString_toIpString_roundtrip (Ipv4Address.mk 3232235777) (by decide) (by decide)⟩

/-! Split: counterexample for the unrestricted partition claim, and the
partition theorem for canonical bases. -/

lemma mk_prefixlen (a : Ipv4Address) (p : Int) : (Ipv4Network.mk a p).prefixlen = p := rfl

lemma mk_address (a : Ipv4Address) (p : Int) : (Ipv4Network.mk a p).address = a := rfl

/-- Claim C4 counterexample: the network with the non-canonical base
127.0.0.0 and prefix length 7 spans [126.0.0.0, 127.255.255.255], but its
/8 children are based at 127.0.0.0 and 128.0.0.0, so the parent's own
network address 126.0.0.0 (2113929216) is covered by no child: split does
not partition [network(), broadcast()] for this network. -/
theorem split_not_partition_noncanonical :
    ¬ (∃ l, (Ipv4Network.mk ⟨2130706432⟩ 7).split 8 = Except.ok l ∧
        (∀ x : Nat,
          (toUint32 ((Ipv4Network.mk ⟨2130706432⟩ 7).network).integer ≤ x ∧
           x ≤ toUint32 ((Ipv4Network.mk ⟨2130706432⟩ 7).broadcast).integer) ↔
          ∃ c ∈ l, toUint32 (c.network).integer ≤ x ∧
            x ≤ toUint32 (c.broadcast).integer)) := by
  rintro ⟨l, hok, hall⟩
  have h2 : (Ipv4Network.mk ⟨2130706432⟩ 7).split 8 =
      Except.ok [Ipv4Network.mk ⟨2130706432⟩ 8, Ipv4Network.mk ⟨-2147483648⟩ 8] := by decide
  rw [h2] at hok
  have hl : l = [Ipv4Network.mk ⟨2130706432⟩ 8, Ipv4Network.mk ⟨-2147483648⟩ 8] :=
    (Except.ok.inj hok).symm
  subst hl
  have h1 := (hall 2113929216).mp (by decide)
  revert h1
  decide

/-- An aligned value below 2^32 leaves room for one further aligned block. -/
lemma aligned_plus_block (A k1 : Nat) (h32 : k1 ≤ 32) (hA : A < 2 ^ 32)
    (halign : A % 2 ^ k1 = 0) : A + 2 ^ k1 ≤ 2 ^ 32 := by
  obtain ⟨m, hm⟩ := Nat.dvd_of_mod_eq_zero halign
  have e2 : (2:Nat) ^ 32 = 2 ^ (32 - k1) * 2 ^ k1 := by
    rw [← pow_add]
    congr 1
    omega
  have hK1 : (0:Nat) < 2 ^ k1 := Nat.two_pow_pos k1
  have hcomm : 2 ^ k1 * m = m * 2 ^ k1 := Nat.mul_comm _ _
  have hmlt : m < 2 ^ (32 - k1) := by
    by_contra hcon
    push_neg at hcon
    have hge : 2 ^ (32 - k1) * 2 ^ k1 ≤ m * 2 ^ k1 := Nat.mul_le_mul_right _ hcon
    rw [← e2] at hge
    omega
  have h10 : (m + 1) * 2 ^ k1 ≤ 2 ^ (32 - k1) * 2 ^ k1 := Nat.mul_le_mul_right _ (by omega)
  have h11 : (m + 1) * 2 ^ k1 = m * 2 ^ k1 + 2 ^ k1 := by ring
  omega

/-- Value and bounds of one split child: clearing cancels on an aligned
base, the child address is base + i * 2^k2, and everything stays below
2^32. -/
lemma split_child_value (A k1 k2 d i : Nat)
    (hk : k1 = k2 + d) (h32 : k1 ≤ 32) (hA : A < 2 ^ 32)
    (halign : A % 2 ^ k1 = 0) (hi : i < 2 ^ d) :
    A / 2 ^ k2 * 2 ^ k2 = A ∧
    (A / 2 ^ k2 + i) * 2 ^ k2 = A + i * 2 ^ k2 ∧
    A + i * 2 ^ k2 + 2 ^ k2 ≤ 2 ^ 32 := by
  have e1 : (2:Nat) ^ k1 = 2 ^ d * 2 ^ k2 := by
    rw [← pow_add]
    congr 1
    omega
  have hd2 : (0:Nat) < 2 ^ k2 := Nat.two_pow_pos k2
  have hdvd2 : 2 ^ k2 ∣ A := by
    obtain ⟨m, hm⟩ := Nat.dvd_of_mod_eq_zero halign
    exact ⟨2 ^ d * m, by rw [hm, e1]; ring⟩
  have hc : A / 2 ^ k2 * 2 ^ k2 = A := Nat.div_mul_cancel hdvd2
  have h9 : A + 2 ^ k1 ≤ 2 ^ 32 := aligned_plus_block A k1 h32 hA halign
  have h7 : (i + 1) * 2 ^ k2 ≤ 2 ^ d * 2 ^ k2 := Nat.mul_le_mul_right _ (by omega)
  have h8 : (i + 1) * 2 ^ k2 = i * 2 ^ k2 + 2 ^ k2 := by ring
  refine ⟨hc, by rw [add_mul, hc], by omega⟩

/-- Partition of an aligned interval of 2^d blocks of size K into the
blocks themselves. -/
lemma aligned_interval_partition (A K d : Nat) (hK : 0 < K) (x : Nat) :
    (A ≤ x ∧ x ≤ A + 2 ^ d * K - 1) ↔
    ∃ i, i < 2 ^ d ∧ A + i * K ≤ x ∧ x ≤ A + i * K + (K - 1) := by
  constructor
  · rintro ⟨h1, h2⟩
    have hdK : 0 < 2 ^ d * K := by positivity
    refine ⟨(x - A) / K, ?_, ?_, ?_⟩
    · rw [Nat.div_lt_iff_lt_mul hK]
      omega
    · have h5 : (x - A) / K * K ≤ x - A := Nat.div_mul_le_self _ _
      omega
    · have h3 := Nat.div_add_mod (x - A) K
      have h4 : (x - A) % K < K := Nat.mod_lt _ hK
      have h6 : K * ((x - A) / K) = (x - A) / K * K := Nat.mul_comm _ _
      omega
  · rintro ⟨i, hi, h5, h6⟩
    have h7 : (i + 1) * K ≤ 2 ^ d * K := Nat.mul_le_mul_right K (by omega)
    have h8 : (i + 1) * K = i * K + K := by ring
    omega

/-- Two distinct blocks of the aligned partition share no point. -/
lemma aligned_blocks_disjoint (A K i j x : Nat) (hK : 0 < K) (hij : i < j)
    (h2 : x ≤ A + i * K + (K - 1)) (h3 : A + j * K ≤ x) : False := by
  have h5 : (i + 1) * K ≤ j * K := Nat.mul_le_mul_right K (by omega)
  have h6 : (i + 1) * K = i * K + K := by ring
  omega

/-- The complement of the netmask as a 32-bit value. -/
lemma jsNot_netmask (n : Ipv4Network) (h0 : 0 ≤ n.prefixlen) (h1 : n.prefixlen ≤ 32) :
    jsNot n._netmask = toInt32 (Int.ofNat (2 ^ maskExp n.prefixlen - 1)) := by
  have hmask := netmask_pattern n h0 h1
  have hKpos := Nat.two_pow_pos (maskExp n.prefixlen)
  have hK32 : (2:Nat) ^ maskExp n.prefixlen ≤ 2 ^ 32 :=
    Nat.pow_le_pow_right (by norm_num) (maskExp_le _ h0)
  unfold jsNot
  rw [hmask,
      show 4294967295 - (2 ^ 32 - 2 ^ maskExp n.prefixlen) =
        2 ^ maskExp n.prefixlen - 1 from by omega]

/-- Unsigned network and broadcast of a canonically based network of
prefix length at most 31. -/
lemma canonical_shape (n : Ipv4Network) (h0 : 0 ≤ n.prefixlen) (h31 : n.prefixlen ≤ 31)
    (hcanon : toUint32 n.address.integer % 2 ^ (32 - n.prefixlen).toNat = 0) :
    toUint32 (n.network).integer = toUint32 n.address.integer ∧
    toUint32 (n.broadcast).integer =
      toUint32 n.address.integer + (2 ^ (32 - n.prefixlen).toNat - 1) := by
  have hA := toUint32_lt n.address.integer
  have hmask := netmask_pattern n h0 (by omega)
  rw [maskExp_of_le_31 _ h31] at hmask
  have hk1 : (32 - n.prefixlen).toNat ≤ 32 := by omega
  have hKpos := Nat.two_pow_pos (32 - n.prefixlen).toNat
  have hK32 : (2:Nat) ^ (32 - n.prefixlen).toNat ≤ 2 ^ 32 :=
    Nat.pow_le_pow_right (by norm_num) hk1
  have hblock : toUint32 n.address.integer + 2 ^ (32 - n.prefixlen).toNat ≤ 2 ^ 32 :=
    aligned_plus_block _ _ hk1 (by omega) hcanon
  have hand : jsAnd n.address.integer n._netmask =
      toInt32 (Int.ofNat (toUint32 n.address.integer)) := by
    unfold jsAnd
    rw [hmask, land_high_mask _ _ hk1 (by omega),
        Nat.div_mul_cancel (Nat.dvd_of_mod_eq_zero hcanon)]
  have hnot : jsNot n._netmask =
      toInt32 (Int.ofNat (2 ^ (32 - n.prefixlen).toNat - 1)) := by
    rw [jsNot_netmask n h0 (by omega), maskExp_of_le_31 _ h31]
  constructor
  · rw [network_integer, hand, toUint32_toInt32, toUint32_ofNat _ (by omega)]
  · rw [broadcast_integer, hand, hnot, toUint32_add, toUint32_toInt32, toUint32_toInt32,
        toUint32_ofNat _ (by omega), toUint32_ofNat _ (by omega),
        Nat.mod_eq_of_lt (by omega)]

/-- Claim C4 (amended): splitting a network whose base address is
canonical (its low host bits are zero) with 0 <= p < q <= 32 yields
exactly 2^(q-p) children of prefix length q whose unsigned base addresses
are base + i * 2^(32-q), listed in order of increasing i, and the blocks
[base + i * 2^(32-q), base + i * 2^(32-q) + 2^(32-q) - 1] partition the
parent's unsigned [network(), broadcast()] range with no gaps or overlaps. -/
theorem split_partition_of_canonical (n : Ipv4Network) (q : Int)
    (h0 : 0 ≤ n.prefixlen) (hpq : n.prefixlen < q) (hq : q ≤ 32)
    (hcanon : toUint32 n.address.integer % 2 ^ (32 - n.prefixlen).toNat = 0) :
    ∃ l, n.split q = Except.ok l ∧
      l.length = 2 ^ (q - n.prefixlen).toNat ∧
      (∀ i, (h : i < l.length) →
        (l.get ⟨i, h⟩).prefixlen = q ∧
        toUint32 (l.get ⟨i, h⟩).address.integer =
          toUint32 (n.network).integer + i * 2 ^ (32 - q).toNat) ∧
      toUint32 (n.network).integer = toUint32 n.address.integer ∧
      toUint32 (n.broadcast).integer =
        toUint32 n.address.integer + (2 ^ (32 - n.prefixlen).toNat - 1) ∧
      (∀ x : Nat,
        (toUint32 (n.network).integer ≤ x ∧ x ≤ toUint32 (n.broadcast).integer) ↔
        ∃ i, i < 2 ^ (q - n.prefixlen).toNat ∧
          toUint32 n.address.integer + i * 2 ^ (32 - q).toNat ≤ x ∧
          x ≤ toUint32 n.address.integer + i * 2 ^ (32 - q).toNat +
            (2 ^ (32 - q).toNat - 1)) ∧
      (∀ i j x : Nat, i < j →
        x ≤ toUint32 n.address.integer + i * 2 ^ (32 - q).toNat + (2 ^ (32 - q).toNat - 1) →
        ¬ (toUint32 n.address.integer + j * 2 ^ (32 - q).toNat ≤ x)) := by
  have hA := toUint32_lt n.address.integer
  have hk : (32 - n.prefixlen).toNat = (32 - q).toNat + (q - n.prefixlen).toNat := by omega
  have h32 : (32 - n.prefixlen).toNat ≤ 32 := by omega
  obtain ⟨hnetu, hbcu⟩ := canonical_shape n h0 (by omega) hcanon
  have hok : n.split q = Except.ok
      ((List.range (2 ^ (q - n.prefixlen).toNat)).map
        fun (i : Nat) =>
          ⟨⟨jsShl (jsShrU n.address.integer (32 - q) + (i : Int)) (32 - q)⟩, q⟩) := by
    unfold Ipv4Network.split
    rw [if_neg (by omega)]
  refine ⟨_, hok, ?_, ?_, hnetu, hbcu, ?_, ?_⟩
  · rw [List.length_map, List.length_range]
  · intro i h
    have hilen : i < 2 ^ (q - n.prefixlen).toNat := by
      rw [List.length_map, List.length_range] at h
      exact h
    obtain ⟨hc, hprod, hlt⟩ :=
      split_child_value (toUint32 n.address.integer)
        (32 - n.prefixlen).toNat (32 - q).toNat (q - n.prefixlen).toNat i
        hk h32 (by omega) hcanon hilen
    have hcount : toUint32 (32 - q) % 32 = (32 - q).toNat := by
      unfold toUint32
      omega
    have hshr : jsShrU n.address.integer (32 - q) =
        Int.ofNat (toUint32 n.address.integer / 2 ^ (32 - q).toNat) := by
      unfold jsShrU
      rw [hcount, Nat.shiftRight_eq_div_pow]
    have hK2pos := Nat.two_pow_pos (32 - q).toNat
    have hsumlt : toUint32 n.address.integer / 2 ^ (32 - q).toNat + i < 4294967296 := by
      have hle : toUint32 n.address.integer / 2 ^ (32 - q).toNat + i ≤
          (toUint32 n.address.integer / 2 ^ (32 - q).toNat + i) * 2 ^ (32 - q).toNat :=
        Nat.le_mul_of_pos_right _ hK2pos
      omega
    have h2d : (2:Nat) ^ (q - n.prefixlen).toNat ≤ 2 ^ 32 :=
      Nat.pow_le_pow_right (by norm_num) (by omega)
    have hargu : toUint32 (Int.ofNat (toUint32 n.address.integer / 2 ^ (32 - q).toNat)
        + (i : Int)) = toUint32 n.address.integer / 2 ^ (32 - q).toNat + i := by
      rw [toUint32_add, toUint32_ofNat _ (by omega), toUint32_natCast i (by omega),
          Nat.mod_eq_of_lt hsumlt]
    have hchild : jsShl (jsShrU n.address.integer (32 - q) + (i : Int)) (32 - q) =
        toInt32 (Int.ofNat (toUint32 n.address.integer + i * 2 ^ (32 - q).toNat)) := by
      unfold jsShl
      rw [hshr, hargu, hcount, Nat.shiftLeft_eq, hprod, Nat.mod_eq_of_lt (by omega)]
    have hgeti : (List.map
        (fun (i : Nat) =>
          (⟨⟨jsShl (jsShrU n.address.integer (32 - q) + (i : Int)) (32 - q)⟩, q⟩ : Ipv4Network))
        (List.range (2 ^ (q - n.prefixlen).toNat))).get ⟨i, h⟩ =
        (⟨⟨jsShl (jsShrU n.address.integer (32 - q) + (i : Int)) (32 - q)⟩, q⟩ : Ipv4Network) := by
      rw [List.get_eq_getElem]
      rw [List.getElem_map, List.getElem_range]
    rw [hgeti]
    refine ⟨by rw [mk_prefixlen], ?_⟩
    rw [mk_address, mk_integer, hchild, toUint32_toInt32, toUint32_ofNat _ (by omega), hnetu]
  · intro x
    rw [hnetu, hbcu]
    have hpart := aligned_interval_partition (toUint32 n.address.integer)
      (2 ^ (32 - q).toNat) (q - n.prefixlen).toNat (Nat.two_pow_pos _) x
    have hK1pos := Nat.two_pow_pos (32 - n.prefixlen).toNat
    have hke : (2:Nat) ^ (32 - n.prefixlen).toNat =
        2 ^ (q - n.prefixlen).toNat * 2 ^ (32 - q).toNat := by
      rw [hk, pow_add]
      ring
    have hTpos : (0:Nat) < 2 ^ (q - n.prefixlen).toNat * 2 ^ (32 - q).toNat := by positivity
    rw [show toUint32 n.address.integer + (2 ^ (32 - n.prefixlen).toNat - 1) =
        toUint32 n.address.integer +
          2 ^ (q - n.prefixlen).toNat * 2 ^ (32 - q).toNat - 1 from by rw [hke]; omega]
    exact hpart
  · intro i j x hij h2 h3
    exact aligned_blocks_disjoint (toUint32 n.address.integer)
      (2 ^ (32 - q).toNat) i j x (Nat.two_pow_pos _) hij h2 h3

/-- Witness for C4 at the specification scenario: splitting the
canonically based 10.47.0.0/16 (170852352) into /18 children. -/
theorem split_partition_of_canonical_witness :
    ∃ l, (Ipv4Network.mk ⟨170852352⟩ 16).split 18 = Except.ok l ∧
      l.length = 2 ^ ((18:Int) - (Ipv4Network.mk ⟨170852352⟩ 16).prefixlen).toNat ∧
      (∀ i, (h : i < l.length) →
        (l.get ⟨i, h⟩).prefixlen = 18 ∧
        toUint32 (l.get ⟨i, h⟩).address.integer =
          toUint32 ((Ipv4Network.mk ⟨170852352⟩ 16).network).integer +
            i * 2 ^ ((32:Int) - 18).toNat) ∧
      toUint32 ((Ipv4Network.mk ⟨170852352⟩ 16).network).integer =
        toUint32 (Ipv4Network.mk ⟨170852352⟩ 16).address.integer ∧
      toUint32 ((Ipv4Network.mk ⟨170852352⟩ 16).broadcast).integer =
        toUint32 (Ipv4Network.mk ⟨170852352⟩ 16).address.integer +
          (2 ^ ((32:Int) - (Ipv4Network.mk ⟨170852352⟩ 16).prefixlen).toNat - 1) ∧
      (∀ x : Nat,
        (toUint32 ((Ipv4Network.mk ⟨170852352⟩ 16).network).integer ≤ x ∧
         x ≤ toUint32 ((Ipv4Network.mk ⟨170852352⟩ 16).broadcast).integer) ↔
        ∃ i, i < 2 ^ ((18:Int) - (Ipv4Network.mk ⟨170852352⟩ 16).prefixlen).toNat ∧
          toUint32 (Ipv4Network.mk ⟨170852352⟩ 16).address.integer +
            i * 2 ^ ((32:Int) - 18).toNat ≤ x ∧
          x ≤ toUint32 (Ipv4Network.mk ⟨170852352⟩ 16).address.integer +
            i * 2 ^ ((32:Int) - 18).toNat + (2 ^ ((32:Int) - 18).toNat - 1)) ∧
      (∀ i j x : Nat, i < j →
        x ≤ toUint32 (Ipv4Network.mk ⟨170852352⟩ 16).address.integer +
          i * 2 ^ ((32:Int) - 18).toNat + (2 ^ ((32:Int) - 18).toNat - 1) →
        ¬ (toUint32 (Ipv4Network.mk ⟨170852352⟩ 16).address.integer +
          j * 2 ^ ((32:Int) - 18).toNat ≤ x)) :=
  split_partition_of_canonical (Ipv4Network.mk ⟨170852352⟩ 16) 18
    (by decide) (by decide) (by decide) (by decide)
